import Mathlib

/-!
Shallow embedding of `src/app/modules/base.py`.

The module layer of the repository consists of an abstract `BaseModule`
(a symbolic-expression evaluator built on sympy substitution) and a
fittable `Module` subclass that stores a fitted parameter binding
`param_by_symbol` and supports bootstrap resampling in `fit`.

Modelling decisions:
  * sympy symbols are identified by their name (`sp.Symbol('x') == sp.Symbol('x')`),
    so a symbol is a `String` here.
  * sympy scalar expressions (`sp.Basic`) become the inductive `Expr`;
    `Expr.subs` is simultaneous substitution driven by a symbol-keyed
    association list, mirroring `Basic.subs` applied to a `dict`.
  * Python `dict`s become association lists; `lookupD` is key lookup,
    `insertD` is `d[k] = v` (an existing key keeps its slot, a new key is
    appended, exactly like insertion order in a Python dict), and
    `unionD a b` is `a | b` (entries of `b` override entries of `a`).
  * `np.ndarray` arguments become `Arg.array` over `List Int`
    (element arithmetic plays no role, only indexing and lengths);
    any other argument is an opaque `Arg.scalar`.
  * `np.random.choice(n, size=n, replace=True)` becomes an oracle
    `choice : Nat → List Nat` supplied to `fit`; the number of times the
    oracle is consulted is reported in the result so that statements about
    "no random draw happened" can be made.
  * `getattr(self, k)` on an input keyword resolves a declared symbol
    through the module's symbol table; a name hitting one of the class's
    non-symbol attributes (`subs`, `output`, and for `Module` also `fit`,
    `_fit`, `param_by_symbol`) succeeds too, returning an unsympifiable
    object — `sp.Basic.subs` then silently skips that dict pair
    (`except SympifyError: ... skip it`). The model drops such a pair at
    resolution time, which is observationally equivalent because an
    unsympifiable key never collides with a symbol key in the dict union.
    Only a name matching no attribute raises `AttributeError`.
  * exceptions become `Except` / explicit error fields: `AttributeError`
    from `getattr` is `CallError.unknownInput`, `RuntimeError("Module has
    not been fitted")` is `CallError.notFitted`, `NotImplementedError`
    from `BaseModule.subs` is `CallError.unsupportedStructure`, and the
    two `ValueError`s of `fit` are `FitError.inconsistentLength` /
    `FitError.noFittingData`.
-/

namespace PyBase

/-- A sympy symbol, identified by its name. -/
abbrev Sym := String

/-- A sympy scalar expression (`sp.Basic`): symbols, numeric constants and
arithmetic nodes. -/
inductive Expr where
  | sym (name : Sym)
  | const (val : Int)
  | add (a b : Expr)
  | mul (a b : Expr)
  deriving DecidableEq, Repr

/-- Key lookup in an association list modelling a Python `dict`
(first match; a well-formed dict has no duplicate keys). -/
def lookupD {α : Type} (d : List (String × α)) (k : String) : Option α :=
  (d.find? (fun kv => kv.1 == k)).map (fun kv => kv.2)

/-- `d[k] = v` on a Python dict: an existing key keeps its position and gets
the new value, a fresh key is appended at the end. -/
def insertD {α : Type} (d : List (String × α)) (k : String) (v : α) :
    List (String × α) :=
  if d.any (fun kv => kv.1 == k) then
    d.map (fun kv => if kv.1 == k then (k, v) else kv)
  else
    d ++ [(k, v)]

/-- Python dict union `a | b`: start from `a` and insert every entry of `b`
in order, so values of `b` take precedence on key collision. -/
def unionD {α : Type} (a b : List (String × α)) : List (String × α) :=
  b.foldl (fun acc kv => insertD acc kv.1 kv.2) a

/-- A symbol-to-expression binding, as handed to `Basic.subs`. -/
abbrev Binding := List (Sym × Expr)

/-- `sp.Basic.subs` with a dict of distinct symbol keys: simultaneous
replacement of every bound symbol. -/
def Expr.subs (b : Binding) : Expr → Expr
  | .sym n =>
    match lookupD b n with
    | some e => e
    | none => .sym n
  | .const v => .const v
  | .add x y => .add (x.subs b) (y.subs b)
  | .mul x y => .mul (x.subs b) (y.subs b)

/-- A value handed to `BaseModule.subs`: a sympy expression, a `list`, a
`dict`, or anything else (e.g. a raw number), which the engine rejects. -/
inductive Value where
  | expr (e : Expr)
  | list (items : List Value)
  | dict (entries : List (String × Value))
  | other (tag : Nat)
  deriving Repr

/-- Errors surfaced by `BaseModule.subs`, `BaseModule.__call__` and
`Module.__call__`. -/
inductive CallError where
  | unknownInput          -- AttributeError raised by getattr(self, k)
  | notFitted             -- RuntimeError("Module has not been fitted")
  | unsupportedStructure  -- NotImplementedError raised by BaseModule.subs
  deriving DecidableEq, Repr

mutual

/-- `BaseModule.subs`: substitute in an expression, recurse through lists
and dicts, and raise `NotImplementedError` on anything else. -/
def BaseModule.subs (b : Binding) : Value → Except CallError Value
  | .expr e => .ok (.expr (e.subs b))
  | .list items => (BaseModule.subsItems b items).map Value.list
  | .dict entries => (BaseModule.subsEntries b entries).map Value.dict
  | .other _ => .error .unsupportedStructure

/-- The list comprehension inside `BaseModule.subs`: substitute every
element in order, propagating the first failure. -/
def BaseModule.subsItems (b : Binding) : List Value → Except CallError (List Value)
  | [] => .ok []
  | v :: rest =>
    match BaseModule.subs b v with
    | .error e => .error e
    | .ok v' =>
      match BaseModule.subsItems b rest with
      | .error e => .error e
      | .ok rest' => .ok (v' :: rest')

/-- The dict comprehension inside `BaseModule.subs`: substitute every value
in order, keeping keys, propagating the first failure. -/
def BaseModule.subsEntries (b : Binding) :
    List (String × Value) → Except CallError (List (String × Value))
  | [] => .ok []
  | kv :: rest =>
    match BaseModule.subs b kv.2 with
    | .error e => .error e
    | .ok v' =>
      match BaseModule.subsEntries b rest with
      | .error e => .error e
      | .ok rest' => .ok ((kv.1, v') :: rest')

end

/-- A symbol-to-float parameter binding returned by `_fit` and stored in
`param_by_symbol` (floats modelled as `Int`: only identity matters here). -/
abbrev Params := List (Sym × Int)

/-- The parameter binding viewed as a substitution dict: each fitted value
is sympified to a constant. -/
def paramBinding (p : Params) : Binding :=
  p.map (fun kv => (kv.1, Expr.const kv.2))

/-- State of a fittable `Module` instance.

`attrs` models the symbol-valued attributes of the concrete subclass:
`getattr(self, k)` on an input keyword `k` resolves to the declared symbol
`attrs[k]`; a name of a non-symbol attribute (see `class_attrs`) resolves
to an unsympifiable object, and `getattr` raises `AttributeError` only when
no attribute at all matches.
`output` is the expression structure returned by `self.output()`.
`param_by_symbol` is `None` until a `fit` call succeeds. -/
structure Module where
  attrs : List (String × Sym)
  output : Value
  param_by_symbol : Option Params
  deriving Repr

/-- The non-symbol attribute names a concrete `BaseModule` instance exposes
(the class namespace of `BaseModule` in `base.py`): the classmethod `subs`
and the `output` method. `getattr` succeeds on these, returning a bound
method that `sympify` cannot convert, so `sp.Basic.subs` silently skips the
pair. Dunder attributes inherited from `object` behave the same way and are
not enumerated. -/
def base_class_attrs : List String := ["subs", "output"]

/-- The non-symbol attribute names a `Module` instance exposes on top of
its declared symbols: the methods `subs`, `output`, `fit`, `_fit`, and the
stored `param_by_symbol` dict. As with `base_class_attrs`, `getattr`
succeeds on them and substitution silently skips the unsympifiable key. -/
def class_attrs : List String :=
  ["subs", "output", "fit", "_fit", "param_by_symbol"]

/-- The dict comprehension `{getattr(self, k): v for k, v in inputs.items()}`
shared by `BaseModule.__call__` and `Module.__call__`: a name in the symbol
table resolves to its declared symbol; a name in `clsAttrs` resolves to an
unsympifiable attribute whose pair `sp.Basic.subs` later skips — modelled by
dropping the pair here, which is observationally equivalent since such a key
never collides with a symbol key; any other name raises `AttributeError`. -/
def input_by_symbol (attrs : List (String × Sym)) (clsAttrs : List String)
    (acc : Binding) : List (String × Expr) → Except CallError Binding
  | [] => .ok acc
  | kv :: rest =>
    match lookupD attrs kv.1 with
    | some s => input_by_symbol attrs clsAttrs (insertD acc s kv.2) rest
    | none =>
      if kv.1 ∈ clsAttrs then input_by_symbol attrs clsAttrs acc rest
      else .error .unknownInput

/-- `BaseModule.__call__(output=None, **inputs)` for a non-fittable module
with attribute table `attrs` and `output()` result `outputVal`. -/
def BaseModule.call (attrs : List (String × Sym)) (outputVal : Value)
    (output : Option Value) (inputs : List (String × Expr)) :
    Except CallError Value :=
  let out := output.getD outputVal
  match input_by_symbol attrs base_class_attrs [] inputs with
  | .error e => .error e
  | .ok inp => BaseModule.subs inp out

/-- `Module.__call__(output=None, **inputs)`: fail when not fitted, then
substitute with `input_by_symbol | self.param_by_symbol` (the Python dict
union, whose right operand wins on collision). -/
def Module.call (m : Module) (output : Option Value)
    (inputs : List (String × Expr)) : Except CallError Value :=
  match m.param_by_symbol with
  | none => .error .notFitted
  | some params =>
    let out := output.getD m.output
    match input_by_symbol m.attrs class_attrs [] inputs with
    | .error e => .error e
    | .ok inp => BaseModule.subs (unionD inp (paramBinding params)) out

/-- An argument passed to `Module.fit`: a 1-D `np.ndarray` or any other
(scalar / config) value, which `fit` never inspects. -/
inductive Arg where
  | array (xs : List Int)
  | scalar (tag : Nat)
  deriving DecidableEq, Repr

/-- Errors surfaced by `Module.fit`. -/
inductive FitError where
  | inconsistentLength  -- ValueError("All arguments must have the same length")
  | noFittingData       -- ValueError("At least one argument must be provided")
  | fitFailed           -- an exception propagated out of the subclass _fit
  deriving DecidableEq, Repr

/-- Result of the argument scan of `Module.fit` (the `for arg in
itertools.chain(args, kwargs.values())` loop): the error raised, the value
of `sampled_index`, and how many times `np.random.choice` was consulted. -/
structure ScanState where
  err : Option FitError
  sampled_index : Option (List Nat)
  draws : Nat
  deriving DecidableEq, Repr

/-- The scan loop of `Module.fit`: skip non-arrays; on the first array draw
`sampled_index = choice(len(arg))`; raise `InconsistentLength` as soon as an
array's length differs from the drawn index length. -/
def scanArgs (choice : Nat → List Nat) :
    List Arg → Option (List Nat) → Nat → ScanState
  | [], idx, draws => ⟨none, idx, draws⟩
  | .scalar _ :: rest, idx, draws => scanArgs choice rest idx draws
  | .array xs :: rest, idx, draws =>
    let drawn : List Nat × Nat :=
      match idx with
      | none => (choice xs.length, draws + 1)
      | some i => (i, draws)
    if xs.length ≠ drawn.1.length then
      ⟨some .inconsistentLength, some drawn.1, drawn.2⟩
    else
      scanArgs choice rest (some drawn.1) drawn.2

/-- `arg[sampled_index] if isinstance(arg, np.ndarray) else arg`:
gather an array argument at the drawn indices, pass anything else through. -/
def gatherArg (idx : List Nat) : Arg → Arg
  | .array xs => .array (idx.map (fun i => xs.getD i 0))
  | .scalar t => .scalar t

/-- The lengths of the array-typed arguments of a fit call, in scan order. -/
def arrayLens : List Arg → List Nat
  | [] => []
  | .array xs :: rest => xs.length :: arrayLens rest
  | .scalar _ :: rest => arrayLens rest

/-- Outcome of a `Module.fit` call: the error raised (if any), the module
state after the call, the number of random index draws performed, and
whether the subclass `_fit` was invoked. -/
structure FitResult where
  err : Option FitError
  module : Module
  draws : Nat
  fitCalled : Bool
  deriving Repr

/-- `self.param_by_symbol = self._fit(*args, **kwargs)`: on success the
stored binding is replaced wholesale; an exception leaves it untouched. -/
def Module.applyFit (m : Module) (r : Except Unit Params) (draws : Nat) :
    FitResult :=
  match r with
  | .ok p => ⟨none, { m with param_by_symbol := some p }, draws, true⟩
  | .error _ => ⟨some .fitFailed, m, draws, true⟩

/-- `Module.fit(bootstrap, *args, **kwargs)`. `choice` stands for
`np.random.choice(n, size=n, replace=True)` and `fitFn` for the abstract
`self._fit`. With `bootstrap` set, scan the chained positional and keyword
arguments, fail with `NoFittingData` when no array was seen, then gather
every array at the shared `sampled_index` before delegating to `_fit`. -/
def Module.fit (m : Module) (bootstrap : Bool) (args : List Arg)
    (kwargs : List (String × Arg)) (choice : Nat → List Nat)
    (fitFn : List Arg → List (String × Arg) → Except Unit Params) :
    FitResult :=
  if bootstrap then
    let s := scanArgs choice (args ++ kwargs.map (fun kv => kv.2)) none 0
    match s.err with
    | some e => ⟨some e, m, s.draws, false⟩
    | none =>
      match s.sampled_index with
      | none => ⟨some .noFittingData, m, s.draws, false⟩
      | some idx =>
        m.applyFit
          (fitFn (args.map (gatherArg idx))
            (kwargs.map (fun kv => (kv.1, gatherArg idx kv.2))))
          s.draws
  else
    m.applyFit (fitFn args kwargs) 0

/-! ### Dictionary lemmas -/

theorem lookupD_nil {α : Type} (k : String) :
    lookupD ([] : List (String × α)) k = none := rfl

theorem lookupD_cons {α : Type} (kv : String × α) (d : List (String × α))
    (k : String) :
    lookupD (kv :: d) k = if kv.1 = k then some kv.2 else lookupD d k := by
  by_cases h : kv.1 = k <;> simp [lookupD, List.find?_cons, h]

theorem lookupD_eq_none_of_not_mem {α : Type} (d : List (String × α))
    (k : String) (h : k ∉ d.map Prod.fst) : lookupD d k = none := by
  induction d with
  | nil => rfl
  | cons kv rest ih =>
    simp only [List.map_cons, List.mem_cons, not_or] at h
    rw [lookupD_cons, if_neg (fun e => h.1 e.symm)]
    exact ih h.2

theorem lookupD_map_overwrite_ne {α : Type} (d : List (String × α))
    (k k' : String) (v : α) (h : k ≠ k') :
    lookupD (d.map (fun kv => if kv.1 == k then (k, v) else kv)) k' =
      lookupD d k' := by
  induction d with
  | nil => rfl
  | cons kv rest ih =>
    rw [List.map_cons]
    by_cases hh : kv.1 = k
    · have hb : (kv.1 == k) = true := by simp [hh]
      have hne : kv.1 ≠ k' := by rw [hh]; exact h
      rw [lookupD_cons, lookupD_cons]
      simp only [hb, if_true]
      rw [if_neg h, if_neg hne]
      exact ih
    · have hb : (kv.1 == k) = false := by simp [hh]
      rw [lookupD_cons, lookupD_cons]
      simp only [hb, Bool.false_eq_true, if_false]
      by_cases hk' : kv.1 = k'
      · rw [if_pos hk', if_pos hk']
      · rw [if_neg hk', if_neg hk']
        exact ih

theorem lookupD_map_overwrite_self {α : Type} (d : List (String × α))
    (k : String) (v : α) (h : d.any (fun kv => kv.1 == k) = true) :
    lookupD (d.map (fun kv => if kv.1 == k then (k, v) else kv)) k = some v := by
  induction d with
  | nil => simp at h
  | cons kv rest ih =>
    rw [List.map_cons]
    by_cases hh : kv.1 = k
    · have hb : (kv.1 == k) = true := by simp [hh]
      rw [lookupD_cons]
      simp only [hb, if_true]
    · have hb : (kv.1 == k) = false := by simp [hh]
      rw [List.any_cons, hb] at h
      simp only [Bool.false_or] at h
      rw [lookupD_cons]
      simp only [hb, Bool.false_eq_true, if_false]
      rw [if_neg hh]
      exact ih h

theorem lookupD_append {α : Type} (a b : List (String × α)) (k : String) :
    lookupD (a ++ b) k =
      match lookupD a k with
      | some v => some v
      | none => lookupD b k := by
  induction a with
  | nil => simp [lookupD_nil]
  | cons kv rest ih =>
    rw [List.cons_append, lookupD_cons, lookupD_cons]
    by_cases h : kv.1 = k
    · simp [h]
    · simp [h, ih]

theorem lookupD_any_of_none {α : Type} (d : List (String × α)) (k : String)
    (h : d.any (fun kv => kv.1 == k) = false) : lookupD d k = none := by
  apply lookupD_eq_none_of_not_mem
  intro hmem
  rcases List.mem_map.mp hmem with ⟨kv, hkv, hfst⟩
  have : d.any (fun kv => kv.1 == k) = true :=
    List.any_eq_true.mpr ⟨kv, hkv, by simp [hfst]⟩
  simp [this] at h

/-- The lookup specification of Python dict insertion: the inserted key maps
to the new value, every other key is untouched. -/
theorem lookupD_insertD {α : Type} (d : List (String × α)) (k : String) (v : α)
    (k' : String) :
    lookupD (insertD d k v) k' = if k = k' then some v else lookupD d k' := by
  unfold insertD
  by_cases h : d.any (fun kv => kv.1 == k) = true
  · rw [if_pos h]
    by_cases hk : k = k'
    · subst hk
      rw [if_pos rfl]
      exact lookupD_map_overwrite_self d k v h
    · rw [if_neg hk]
      exact lookupD_map_overwrite_ne d k k' v hk
  · have h' : d.any (fun kv => kv.1 == k) = false := eq_false_of_ne_true h
    rw [if_neg h, lookupD_append]
    by_cases hk : k = k'
    · subst hk
      rw [lookupD_any_of_none d k h']
      simp [lookupD_cons]
    · rw [if_neg hk]
      cases hl : lookupD d k' with
      | some w => simp
      | none => simp [lookupD_cons, lookupD_nil, hk]

/-- Keys absent from the right operand of a dict union are looked up in the
left operand. -/
theorem lookupD_unionD_of_none {α : Type} (b : List (String × α))
    (k : String) (h : lookupD b k = none) :
    ∀ a : List (String × α), lookupD (unionD a b) k = lookupD a k := by
  induction b with
  | nil => intro a; rfl
  | cons kv rest ih =>
    intro a
    rw [lookupD_cons] at h
    by_cases hh : kv.1 = k
    · simp [hh] at h
    · rw [if_neg hh] at h
      have hstep : unionD a (kv :: rest) = unionD (insertD a kv.1 kv.2) rest :=
        rfl
      rw [hstep, ih h, lookupD_insertD, if_neg hh]

/-- Keys present in the right operand of a Python dict union `a | b` resolve
to the right operand's value: `b` wins every collision. -/
theorem lookupD_unionD_of_some {α : Type} (b : List (String × α))
    (k : String) (v : α) (hnd : (b.map Prod.fst).Nodup)
    (h : lookupD b k = some v) :
    ∀ a : List (String × α), lookupD (unionD a b) k = some v := by
  induction b with
  | nil => simp [lookupD_nil] at h
  | cons kv rest ih =>
    intro a
    rw [lookupD_cons] at h
    simp only [List.map_cons, List.nodup_cons] at hnd
    have hstep : unionD a (kv :: rest) = unionD (insertD a kv.1 kv.2) rest := rfl
    by_cases hh : kv.1 = k
    · rw [if_pos hh] at h
      have hrest : lookupD rest k = none := by
        apply lookupD_eq_none_of_not_mem
        rw [← hh]
        exact hnd.1
      rw [hstep, lookupD_unionD_of_none rest k hrest, lookupD_insertD,
        if_pos hh, h]
    · rw [if_neg hh] at h
      rw [hstep]
      exact ih hnd.2 h _

/-- Looking up the sympified parameter dict is looking up the raw parameter
dict and wrapping the value as a constant. -/
theorem lookupD_paramBinding (p : Params) (s : Sym) :
    lookupD (paramBinding p) s = (lookupD p s).map Expr.const := by
  induction p with
  | nil => rfl
  | cons kv rest ih =>
    rw [paramBinding, List.map_cons, lookupD_cons, lookupD_cons]
    by_cases h : kv.1 = s
    · simp [h]
    · simp only [h, if_false, if_neg h]
      exact ih

theorem paramBinding_keys (p : Params) :
    (paramBinding p).map Prod.fst = p.map Prod.fst := by
  simp [paramBinding, List.map_map]

/-! ### Input-resolution lemmas -/

/-- When every input name resolves to a declared symbol, the comprehension
succeeds. -/
theorem input_by_symbol_ok (attrs : List (String × Sym))
    (clsAttrs : List String) :
    ∀ inputs : List (String × Expr),
      (∀ kv ∈ inputs, (lookupD attrs kv.1).isSome) →
      ∀ acc : Binding,
        ∃ d, input_by_symbol attrs clsAttrs acc inputs = .ok d := by
  intro inputs
  induction inputs with
  | nil => exact fun _ acc => ⟨acc, rfl⟩
  | cons kv rest ih =>
    intro h acc
    simp only [input_by_symbol]
    cases hl : lookupD attrs kv.1 with
    | none =>
      have := h kv (List.mem_cons_self kv rest)
      rw [hl] at this
      simp at this
    | some s => exact ih (fun kw hm => h kw (List.mem_cons_of_mem kv hm)) _

/-- A successful `BaseModule.subs` over a list substitutes elementwise, in
order. -/
theorem subsItems_ok (b : Binding) :
    ∀ vs rs : List Value, BaseModule.subsItems b vs = .ok rs →
      List.Forall₂ (fun v w => BaseModule.subs b v = .ok w) vs rs := by
  intro vs
  induction vs with
  | nil =>
    intro rs h
    simp only [BaseModule.subsItems] at h
    cases h
    exact List.Forall₂.nil
  | cons v rest ih =>
    intro rs h
    simp only [BaseModule.subsItems] at h
    cases h1 : BaseModule.subs b v with
    | error e => rw [h1] at h; cases h
    | ok v' =>
      rw [h1] at h
      cases h2 : BaseModule.subsItems b rest with
      | error e => rw [h2] at h; cases h
      | ok rest' =>
        rw [h2] at h
        cases h
        exact List.Forall₂.cons h1 (ih rest' h2)

/-- A successful `BaseModule.subs` over a dict keeps every key and
substitutes every value, in order. -/
theorem subsEntries_ok (b : Binding) :
    ∀ es fs : List (String × Value), BaseModule.subsEntries b es = .ok fs →
      List.Forall₂
        (fun e f => e.1 = f.1 ∧ BaseModule.subs b e.2 = .ok f.2) es fs := by
  intro es
  induction es with
  | nil =>
    intro fs h
    simp only [BaseModule.subsEntries] at h
    cases h
    exact List.Forall₂.nil
  | cons kv rest ih =>
    intro fs h
    simp only [BaseModule.subsEntries] at h
    cases h1 : BaseModule.subs b kv.2 with
    | error e => rw [h1] at h; cases h
    | ok v' =>
      rw [h1] at h
      cases h2 : BaseModule.subsEntries b rest with
      | error e => rw [h2] at h; cases h
      | ok rest' =>
        rw [h2] at h
        cases h
        exact List.Forall₂.cons ⟨rfl, h1⟩ (ih rest' h2)

/-- Pairwise key equality of dict entries gives equal key lists. -/
theorem keys_eq_of_forall₂ {β : Type} {R : (String × β) → (String × β) → Prop}
    (hR : ∀ e f, R e f → e.1 = f.1) :
    ∀ es fs : List (String × β), List.Forall₂ R es fs →
      es.map Prod.fst = fs.map Prod.fst := by
  intro es fs h
  induction h with
  | nil => rfl
  | cons hef _ ih =>
    simp only [List.map_cons, ih]
    rw [hR _ _ hef]

/-! ### Fit-scan lemmas -/

/-- A scan over arguments with no array leaves the error, index and draw
count untouched. -/
theorem scanArgs_no_array (choice : Nat → List Nat) :
    ∀ (l : List Arg) (idx : Option (List Nat)) (draws : Nat),
      arrayLens l = [] → scanArgs choice l idx draws = ⟨none, idx, draws⟩ := by
  intro l
  induction l with
  | nil => intro idx draws _; rfl
  | cons a rest ih =>
    intro idx draws h
    cases a with
    | scalar t => exact ih idx draws h
    | array xs => simp [arrayLens] at h

/-- Once `sampled_index` is drawn, a scan over arrays that all match its
length finishes without error and without further draws. -/
theorem scanArgs_some_uniform (choice : Nat → List Nat) :
    ∀ (l : List Arg) (idx : List Nat) (draws : Nat),
      (∀ n ∈ arrayLens l, n = idx.length) →
      scanArgs choice l (some idx) draws = ⟨none, some idx, draws⟩ := by
  intro l
  induction l with
  | nil => intro idx draws _; rfl
  | cons a rest ih =>
    intro idx draws h
    cases a with
    | scalar t => exact ih idx draws (by simpa [arrayLens] using h)
    | array xs =>
      have hx : xs.length = idx.length :=
        h xs.length (by simp [arrayLens])
      simp only [scanArgs]
      rw [if_neg (by simpa using hx)]
      exact ih idx draws (fun n hn => h n (by simp [arrayLens, hn]))

/-- Once `sampled_index` is drawn, the first array whose length differs
raises `InconsistentLength`, with no further draw. -/
theorem scanArgs_some_mismatch (choice : Nat → List Nat) :
    ∀ (l : List Arg) (idx : List Nat) (draws : Nat),
      (∃ n ∈ arrayLens l, n ≠ idx.length) →
      scanArgs choice l (some idx) draws =
        ⟨some .inconsistentLength, some idx, draws⟩ := by
  intro l
  induction l with
  | nil =>
    rintro idx draws ⟨n, hn, _⟩
    simp [arrayLens] at hn
  | cons a rest ih =>
    rintro idx draws ⟨n, hn, hne⟩
    cases a with
    | scalar t =>
      exact ih idx draws ⟨n, by simpa [arrayLens] using hn, hne⟩
    | array xs =>
      by_cases hx : xs.length = idx.length
      · simp only [scanArgs]
        rw [if_neg (by simpa using hx)]
        apply ih
        rcases List.mem_cons.mp (by simpa [arrayLens] using hn) with h1 | h1
        · exact absurd (h1 ▸ hx) hne
        · exact ⟨n, h1, hne⟩
      · simp only [scanArgs]
        rw [if_pos (by simpa using hx)]

/-- With a length-faithful random oracle and all array arguments of one
common length `L`, the scan draws exactly once — from the first array — and
finishes without error, sharing that single index array. -/
theorem scanArgs_none_uniform (choice : Nat → List Nat)
    (hc : ∀ n, (choice n).length = n) :
    ∀ (l : List Arg) (L : Nat), arrayLens l ≠ [] →
      (∀ n ∈ arrayLens l, n = L) →
      scanArgs choice l none 0 = ⟨none, some (choice L), 1⟩ := by
  intro l
  induction l with
  | nil => intro L h _; simp [arrayLens] at h
  | cons a rest ih =>
    intro L hne h
    cases a with
    | scalar t =>
      exact ih L (by simpa [arrayLens] using hne) (by simpa [arrayLens] using h)
    | array xs =>
      have hx : xs.length = L := h xs.length (by simp [arrayLens])
      subst hx
      simp only [scanArgs]
      rw [if_neg (by simp [hc])]
      exact scanArgs_some_uniform choice rest (choice xs.length) 1
        (fun n hn => by
          rw [hc]
          exact h n (by simp [arrayLens, hn]))

/-- With a length-faithful random oracle and two array arguments of
different lengths, the scan raises `InconsistentLength` after exactly one
draw (taken from the first array before the mismatch is noticed). -/
theorem scanArgs_none_mismatch (choice : Nat → List Nat)
    (hc : ∀ n, (choice n).length = n) :
    ∀ l : List Arg,
      (∃ n₁ ∈ arrayLens l, ∃ n₂ ∈ arrayLens l, n₁ ≠ n₂) →
      ∃ i, scanArgs choice l none 0 = ⟨some .inconsistentLength, some i, 1⟩ := by
  intro l
  induction l with
  | nil =>
    rintro ⟨n₁, hn₁, -⟩
    simp [arrayLens] at hn₁
  | cons a rest ih =>
    rintro ⟨n₁, hn₁, n₂, hn₂, hne⟩
    cases a with
    | scalar t =>
      exact ih ⟨n₁, by simpa [arrayLens] using hn₁, n₂,
        by simpa [arrayLens] using hn₂, hne⟩
    | array xs =>
      have hmem : ∃ n ∈ arrayLens rest, n ≠ xs.length := by
        rcases List.mem_cons.mp (by simpa [arrayLens] using hn₁) with e1 | m1
        · rcases List.mem_cons.mp (by simpa [arrayLens] using hn₂) with e2 | m2
          · exact absurd (e1.trans e2.symm) hne
          · exact ⟨n₂, m2, fun hh => hne (e1.trans hh.symm)⟩
        · by_cases hx : n₁ = xs.length
          · rcases List.mem_cons.mp (by simpa [arrayLens] using hn₂) with e2 | m2
            · exact absurd (hx.trans e2.symm) hne
            · exact ⟨n₂, m2, fun hh => hne (hx.trans hh.symm)⟩
          · exact ⟨n₁, m1, hx⟩
      refine ⟨choice xs.length, ?_⟩
      simp only [scanArgs]
      rw [if_neg (by simp [hc])]
      apply scanArgs_some_mismatch
      rcases hmem with ⟨n, hn, hnx⟩
      exact ⟨n, hn, by rw [hc]; exact hnx⟩

/-! ### Concrete fixtures for witnesses and counterexamples -/

/-- A concrete fitted module: attribute `x` holds the declared symbol `x`,
`output()` returns the bare symbol, and a fit stored `{x: 2}`. -/
def fittedM : Module :=
  ⟨[("x", "x")], Value.expr (Expr.sym "x"), some [("x", 2)]⟩

/-- The same concrete module before any successful fit. -/
def unfittedM : Module :=
  ⟨[("x", "x")], Value.expr (Expr.sym "x"), none⟩

/-- A deterministic, length-faithful stand-in for
`np.random.choice(n, size=n, replace=True)`. -/
def rangeChoice : Nat → List Nat := fun n => List.range n

/-- A `_fit` implementation that always succeeds with an empty binding. -/
def okFit : List Arg → List (String × Arg) → Except Unit Params :=
  fun _ _ => .ok []

/-- A `_fit` implementation that always raises. -/
def failFit : List Arg → List (String × Arg) → Except Unit Params :=
  fun _ _ => .error ()

/-! ### Claim theorems -/

/-- C1, counterexample: the module fitted with `{x: 2}` and called with the
colliding input `x := 5` substitutes the fitted value 2, not the supplied 5
— `input_by_symbol | param_by_symbol` lets the parameters win. -/
theorem c1_counterexample :
    Module.call fittedM none [("x", Expr.const 5)] =
      .ok (Value.expr (Expr.const 2)) ∧
    Module.call fittedM none [("x", Expr.const 5)] ≠
      .ok (Value.expr (Expr.const 5)) := by
  refine ⟨rfl, fun h => ?_⟩
  have h2 : Value.expr (Expr.const 2) = Value.expr (Expr.const 5) :=
    Except.ok.inj h
  have h3 : Expr.const 2 = Expr.const 5 := by injection h2
  have h4 : (2 : Int) = 5 := by injection h3
  exact absurd h4 (by decide)

/-- C1, amended: whenever a symbol is bound in the stored parameter binding,
every evaluation substitutes the fitted parameter value for it — the stored
binding, not the caller input, takes precedence on collision. -/
theorem c1_param_precedence (m : Module) (params : Params) (s : Sym) (c : Int)
    (inputs : List (String × Expr))
    (hp : m.param_by_symbol = some params)
    (hnd : (params.map Prod.fst).Nodup)
    (hs : lookupD params s = some c)
    (hin : ∀ kv ∈ inputs, (lookupD m.attrs kv.1).isSome) :
    m.call (some (Value.expr (Expr.sym s))) inputs =
      .ok (Value.expr (Expr.const c)) := by
  obtain ⟨d, hd⟩ := input_by_symbol_ok m.attrs class_attrs inputs hin []
  have hpb : lookupD (paramBinding params) s = some (Expr.const c) := by
    rw [lookupD_paramBinding, hs]
    rfl
  have hnd' : ((paramBinding params).map Prod.fst).Nodup := by
    rw [paramBinding_keys]
    exact hnd
  simp only [Module.call, hp]
  rw [hd]
  simp only [Option.getD_some, BaseModule.subs, Expr.subs]
  rw [lookupD_unionD_of_some _ _ _ hnd' hpb d]

/-- C1, witness: the amended precedence theorem applied to the concrete
fitted module with colliding input `x := 5`. -/
theorem c1_param_precedence_witness :
    Module.call fittedM (some (Value.expr (Expr.sym "x")))
        [("x", Expr.const 5)] =
      .ok (Value.expr (Expr.const 2)) :=
  c1_param_precedence fittedM [("x", 2)] "x" 2 [("x", Expr.const 5)]
    rfl (by decide) rfl (by decide)

/-- C3, counterexample: two arrays of lengths 2 and 3 do raise
`InconsistentLength`, but only after one random index array has already
been drawn (from the first array) — not before any draw. -/
theorem c3_counterexample :
    (Module.fit unfittedM true [Arg.array [1, 2], Arg.array [1, 2, 3]] []
        rangeChoice okFit).err = some FitError.inconsistentLength ∧
    (Module.fit unfittedM true [Arg.array [1, 2], Arg.array [1, 2, 3]] []
        rangeChoice okFit).draws ≠ 0 := by
  refine ⟨rfl, fun h => ?_⟩
  have h1 : (1 : Nat) = 0 := h
  exact absurd h1 (by decide)

/-- C3, amended: with a length-faithful oracle, mismatched array lengths
make `fit(bootstrap=True)` fail with `InconsistentLength` before any
gathering and before `_fit` is invoked, leaving the module untouched — but
exactly one index array has already been drawn from the first array. -/
theorem c3_inconsistent_length (m : Module) (args : List Arg)
    (kwargs : List (String × Arg)) (choice : Nat → List Nat)
    (fitFn : List Arg → List (String × Arg) → Except Unit Params)
    (hc : ∀ n, (choice n).length = n)
    (hm : ∃ n₁ ∈ arrayLens (args ++ kwargs.map (fun kv => kv.2)),
          ∃ n₂ ∈ arrayLens (args ++ kwargs.map (fun kv => kv.2)), n₁ ≠ n₂) :
    Module.fit m true args kwargs choice fitFn =
      ⟨some FitError.inconsistentLength, m, 1, false⟩ := by
  obtain ⟨i, hi⟩ := scanArgs_none_mismatch choice hc _ hm
  simp only [Module.fit, if_true]
  rw [hi]

/-- C3, witness: the amended theorem applied to arrays of lengths 1 and 2. -/
theorem c3_inconsistent_length_witness :
    Module.fit unfittedM true [Arg.array [4], Arg.array [5, 6]] []
        rangeChoice okFit =
      ⟨some FitError.inconsistentLength, unfittedM, 1, false⟩ :=
  c3_inconsistent_length unfittedM [Arg.array [4], Arg.array [5, 6]] []
    rangeChoice okFit (fun n => List.length_range n) (by decide)

/-- C4, confirmed: with all array arguments of one shared length `L`, a
single index array is drawn once from the oracle at length `L`, every array
argument (positional or named) is gathered at that same index array, every
non-array argument passes through unchanged, and position `i` of any
gathered array is the source element at index `idx[i]` — row correspondence
is shared across arguments. -/
theorem c4_bootstrap_gather (m : Module) (args : List Arg)
    (kwargs : List (String × Arg)) (choice : Nat → List Nat)
    (fitFn : List Arg → List (String × Arg) → Except Unit Params) (L : Nat)
    (hc : ∀ n, (choice n).length = n)
    (hne : arrayLens (args ++ kwargs.map (fun kv => kv.2)) ≠ [])
    (hL : ∀ n ∈ arrayLens (args ++ kwargs.map (fun kv => kv.2)), n = L) :
    Module.fit m true args kwargs choice fitFn =
      m.applyFit
        (fitFn (args.map (gatherArg (choice L)))
          (kwargs.map (fun kv => (kv.1, gatherArg (choice L) kv.2)))) 1 ∧
    (choice L).length = L ∧
    (∀ (xs : List Int) (i : Nat), i < L →
      ((choice L).map (fun j => xs.getD j 0)).getD i 0 =
        xs.getD ((choice L).getD i 0) 0) ∧
    (∀ t : Nat, gatherArg (choice L) (Arg.scalar t) = Arg.scalar t) := by
  have hscan := scanArgs_none_uniform choice hc _ L hne hL
  refine ⟨?_, hc L, ?_, fun t => rfl⟩
  · simp only [Module.fit, if_true]
    rw [hscan]
  · intro xs i hi
    have hi' : i < (choice L).length := by rw [hc L]; exact hi
    rw [List.getD_eq_getElem?_getD, List.getD_eq_getElem?_getD,
      List.getElem?_map, List.getElem?_eq_getElem hi']
    simp [List.getElem?_eq_getElem hi']

/-- C4, witness: the gather theorem applied to one positional and one named
array of length 2 plus a scalar. -/
theorem c4_bootstrap_gather_witness :
    Module.fit unfittedM true [Arg.array [10, 20], Arg.scalar 7]
        [("y", Arg.array [30, 40])] rangeChoice okFit =
      Module.applyFit unfittedM
        (okFit ([Arg.array [10, 20], Arg.scalar 7].map
            (gatherArg (rangeChoice 2)))
          ([("y", Arg.array [30, 40])].map
            (fun kv => (kv.1, gatherArg (rangeChoice 2) kv.2)))) 1 :=
  (c4_bootstrap_gather unfittedM [Arg.array [10, 20], Arg.scalar 7]
    [("y", Arg.array [30, 40])] rangeChoice okFit 2
    (fun n => List.length_range n) (by decide) (by decide)).1

/-- C5, confirmed: any failing `fit` call — in particular one whose `_fit`
raises — leaves the stored parameter binding exactly as it was, and a
successful call replaces it wholesale. -/
theorem c5_fit_error_preserves_binding (m : Module) (bootstrap : Bool)
    (args : List Arg) (kwargs : List (String × Arg))
    (choice : Nat → List Nat)
    (fitFn : List Arg → List (String × Arg) → Except Unit Params) :
    (∀ e, (Module.fit m bootstrap args kwargs choice fitFn).err = some e →
      (Module.fit m bootstrap args kwargs choice fitFn).module = m) ∧
    ((Module.fit m bootstrap args kwargs choice fitFn).err = none →
      ∃ p, (Module.fit m bootstrap args kwargs choice fitFn).module =
        { m with param_by_symbol := some p }) := by
  cases bootstrap with
  | false =>
    cases hf : fitFn args kwargs with
    | ok p =>
      exact ⟨fun e he => by simp [Module.fit, Module.applyFit, hf] at he,
        fun _ => ⟨p, by simp [Module.fit, Module.applyFit, hf]⟩⟩
    | error u =>
      exact ⟨fun e he => by simp [Module.fit, Module.applyFit, hf],
        fun hn => by simp [Module.fit, Module.applyFit, hf] at hn⟩
  | true =>
    rcases hs : scanArgs choice (args ++ kwargs.map (fun kv => kv.2)) none 0
      with ⟨err, idx, dr⟩
    cases err with
    | some e0 =>
      exact ⟨fun e he => by simp [Module.fit, hs],
        fun hn => by simp [Module.fit, hs] at hn⟩
    | none =>
      cases idx with
      | none =>
        exact ⟨fun e he => by simp [Module.fit, hs],
          fun hn => by simp [Module.fit, hs] at hn⟩
      | some i =>
        cases hf : fitFn (args.map (gatherArg i))
            (kwargs.map (fun kv => (kv.1, gatherArg i kv.2))) with
        | ok p =>
          exact ⟨fun e he => by
              simp [Module.fit, Module.applyFit, hs, hf] at he,
            fun _ => ⟨p, by simp [Module.fit, Module.applyFit, hs, hf]⟩⟩
        | error u =>
          exact ⟨fun e he => by simp [Module.fit, Module.applyFit, hs, hf],
            fun hn => by simp [Module.fit, Module.applyFit, hs, hf] at hn⟩

/-- C5, witness: a raising `_fit` (without bootstrap) leaves the module
state untouched. -/
theorem c5_fit_error_preserves_binding_witness :
    (Module.fit unfittedM false [] [] rangeChoice failFit).module =
      unfittedM :=
  (c5_fit_error_preserves_binding unfittedM false [] [] rangeChoice
    failFit).1 FitError.fitFailed rfl

/-- C6, confirmed: a successful substitution over a sequence returns a
sequence of the same length with elements substituted in order, and over a
mapping returns a mapping with the same keys in the same order and
substituted values. -/
theorem c6_subs_preserves_shape (b : Binding) (vs : List Value)
    (es : List (String × Value)) :
    (∀ r, BaseModule.subs b (Value.list vs) = .ok r →
      ∃ rs, r = Value.list rs ∧ rs.length = vs.length ∧
        List.Forall₂ (fun v w => BaseModule.subs b v = .ok w) vs rs) ∧
    (∀ r, BaseModule.subs b (Value.dict es) = .ok r →
      ∃ fs, r = Value.dict fs ∧ fs.map Prod.fst = es.map Prod.fst ∧
        List.Forall₂ (fun e f => BaseModule.subs b e.2 = .ok f.2) es fs) := by
  constructor
  · intro r h
    simp only [BaseModule.subs] at h
    cases hs : BaseModule.subsItems b vs with
    | error e => rw [hs] at h; cases h
    | ok rs =>
      rw [hs] at h
      simp only [Except.map] at h
      cases h
      have hf := subsItems_ok b vs rs hs
      exact ⟨rs, rfl, hf.length_eq.symm, hf⟩
  · intro r h
    simp only [BaseModule.subs] at h
    cases hs : BaseModule.subsEntries b es with
    | error e => rw [hs] at h; cases h
    | ok fs =>
      rw [hs] at h
      simp only [Except.map] at h
      cases h
      have hf := subsEntries_ok b es fs hs
      refine ⟨fs, rfl, ?_, hf.imp (fun _ _ hef => hef.2)⟩
      exact (keys_eq_of_forall₂ (fun e f hef => hef.1) es fs hf).symm

/-- C6, witness: the shape theorem applied to a one-element list and a
one-entry dict under the empty binding. -/
theorem c6_subs_preserves_shape_witness :
    (∃ rs, Value.list [Value.expr (Expr.const 1)] = Value.list rs ∧
      rs.length = [Value.expr (Expr.const 1)].length ∧
      List.Forall₂ (fun v w => BaseModule.subs [] v = .ok w)
        [Value.expr (Expr.const 1)] rs) ∧
    (∃ fs, Value.dict [("a", Value.expr (Expr.const 1))] = Value.dict fs ∧
      fs.map Prod.fst = [("a", Value.expr (Expr.const 1))].map Prod.fst ∧
      List.Forall₂ (fun e f => BaseModule.subs [] e.2 = .ok f.2)
        [("a", Value.expr (Expr.const 1))] fs) :=
  ⟨(c6_subs_preserves_shape [] [Value.expr (Expr.const 1)]
      [("a", Value.expr (Expr.const 1))]).1
      (Value.list [Value.expr (Expr.const 1)]) rfl,
    (c6_subs_preserves_shape [] [Value.expr (Expr.const 1)]
      [("a", Value.expr (Expr.const 1))]).2
      (Value.dict [("a", Value.expr (Expr.const 1))]) rfl⟩

/-- C7, confirmed: `BaseModule.subs` rejects any value that is neither an
expression, nor a list, nor a dict, with `NotImplementedError`
(`UnsupportedStructure`), for every binding. -/
theorem c7_subs_unsupported (b : Binding) (t : Nat) :
    BaseModule.subs b (Value.other t) = .error CallError.unsupportedStructure :=
  rfl

/-- C8, confirmed: `fit(bootstrap=True)` with no array-typed argument at
all fails with `NoFittingData`, drawing nothing and never invoking `_fit`,
leaving the module untouched. -/
theorem c8_no_fitting_data (m : Module) (args : List Arg)
    (kwargs : List (String × Arg)) (choice : Nat → List Nat)
    (fitFn : List Arg → List (String × Arg) → Except Unit Params)
    (h : arrayLens (args ++ kwargs.map (fun kv => kv.2)) = []) :
    Module.fit m true args kwargs choice fitFn =
      ⟨some FitError.noFittingData, m, 0, false⟩ := by
  have hscan := scanArgs_no_array choice _ none 0 h
  simp only [Module.fit, if_true]
  rw [hscan]

/-- C8, witness: a bootstrap fit over a single scalar argument. -/
theorem c8_no_fitting_data_witness :
    Module.fit unfittedM true [Arg.scalar 0] [] rangeChoice okFit =
      ⟨some FitError.noFittingData, unfittedM, 0, false⟩ :=
  c8_no_fitting_data unfittedM [Arg.scalar 0] [] rangeChoice okFit rfl

/-- C9, confirmed: evaluating a `Module` whose parameter binding is absent
fails with `NotFitted`, for every requested output and inputs. -/
theorem c9_not_fitted (m : Module) (output : Option Value)
    (inputs : List (String × Expr)) (h : m.param_by_symbol = none) :
    m.call output inputs = .error CallError.notFitted := by
  simp only [Module.call, h]

/-- C9, witness: the unfitted concrete module. -/
theorem c9_not_fitted_witness :
    Module.call unfittedM none [] = .error CallError.notFitted :=
  c9_not_fitted unfittedM none [] rfl

/-- C10, confirmed: `fit(bootstrap=False)` draws nothing, performs no
length or presence validation (it can raise neither `InconsistentLength`
nor `NoFittingData`) and hands all arguments unchanged to `_fit`, which is
always invoked. -/
theorem c10_no_bootstrap_no_validation (m : Module) (args : List Arg)
    (kwargs : List (String × Arg)) (choice : Nat → List Nat)
    (fitFn : List Arg → List (String × Arg) → Except Unit Params) :
    Module.fit m false args kwargs choice fitFn =
      m.applyFit (fitFn args kwargs) 0 ∧
    (Module.fit m false args kwargs choice fitFn).draws = 0 ∧
    (Module.fit m false args kwargs choice fitFn).fitCalled = true ∧
    (Module.fit m false args kwargs choice fitFn).err ≠
      some FitError.inconsistentLength ∧
    (Module.fit m false args kwargs choice fitFn).err ≠
      some FitError.noFittingData := by
  cases hf : fitFn args kwargs with
  | ok p => simp [Module.fit, Module.applyFit, hf]
  | error u => simp [Module.fit, Module.applyFit, hf]

/-- C10, witness: a bootstrap-free fit call with no arguments at all still
reaches `_fit` and draws nothing. -/
theorem c10_no_bootstrap_no_validation_witness :
    (Module.fit unfittedM false [] [] rangeChoice okFit).draws = 0 :=
  (c10_no_bootstrap_no_validation unfittedM [] [] rangeChoice okFit).2.1

end PyBase
